import Mathlib

/-!
Verification development for the zerodhaDataCollector tick-ingestion pipeline
(src/src/market_data_ticker.py).  The definitions below are a shallow
embedding of that module: the scheduled-shutdown guard of
`run_market_data_ticker`, the `INSERT ... ON CONFLICT (instrument_token,
timestamp) DO UPDATE SET` upsert built by `replace_sql_execute_many`, and the
per-batch normalization performed by `bulk_replace` (catalog map lookups, ohlc
unwrapping, depth flattening via `preprocess_depth` / `extract_depth_values` /
`get_depth_values`, renaming, and the batch-level try/except that logs,
notifies and swallows every failure).
-/

namespace ZerodhaDataCollector

/-! ## Stream session controller: scheduled shutdown guard -/

/-- Wall-clock time of day as `datetime.now()` supplies it: hour, minute,
second and microsecond components. -/
structure NowTime where
  hour : Nat
  minute : Nat
  second : Nat
  microsecond : Nat
deriving DecidableEq

/-- Microseconds since midnight of a `NowTime`. -/
def NowTime.toMicros (t : NowTime) : Int :=
  (((t.hour * 3600 + t.minute * 60 + t.second) * 1000000 + t.microsecond : Nat) : Int)

/-- `now.replace(hour=shutdown_hour, minute=shutdown_minute, second=0,
microsecond=0)` from `run_market_data_ticker`: the scheduled shutdown instant
in microseconds since midnight (seconds and microseconds zeroed). -/
def shutdown_time_micros (shutdown_hour shutdown_minute : Nat) : Int :=
  (((shutdown_hour * 3600 + shutdown_minute * 60) * 1000000 : Nat) : Int)

/-- `run_duration = (shutdown_time - now).total_seconds()`.  The source keeps a
float number of seconds; only its sign is ever inspected, and that sign equals
the sign of this exact microsecond difference. -/
def run_duration (now : NowTime) (shutdown_hour shutdown_minute : Nat) : Int :=
  shutdown_time_micros shutdown_hour shutdown_minute - now.toMicros

/-- Outcome of `run_market_data_ticker`: `refused` is the early `return False`
taken before the shutdown timer is armed, the lookup tables are read, the
websocket is created or any write happens; `started` means the function
proceeded to arm the timer and open the stream for the given duration. -/
inductive TickerOutcome where
  | refused
  | started (run_duration_micros : Int)
deriving DecidableEq

/-- The start-time guard of `run_market_data_ticker`: it logs and returns
`False` exactly when `run_duration < 0`; otherwise it continues into the
session (timer, subscription, ticker loop). -/
def run_market_data_ticker (now : NowTime) (shutdown_hour shutdown_minute : Nat) :
    TickerOutcome :=
  if run_duration now shutdown_hour shutdown_minute < 0 then TickerOutcome.refused
  else TickerOutcome.started (run_duration now shutdown_hour shutdown_minute)

/-! ## Batch writer: the PostgreSQL upsert of `replace_sql_execute_many` -/

/-- A daily-table key: the `(instrument_token, timestamp)` pair named by the
`UNIQUE (instrument_token, timestamp)` constraint.  The `timestamp` column of
the DDL is nullable, hence `Option Int`. -/
abbrev DailyKey := Nat × Option Int

/-- When PostgreSQL `ON CONFLICT (instrument_token, timestamp)` fires: both
key columns must compare equal under SQL semantics, in which a NULL timestamp
never equals anything (two NULLs are not equal). -/
def key_conflicts (k1 k2 : DailyKey) : Bool :=
  decide (k1.1 = k2.1) &&
    match k1.2, k2.2 with
    | some t1, some t2 => decide (t1 = t2)
    | _, _ => false

/-- Effect of one `INSERT ... ON CONFLICT (instrument_token, timestamp) DO
UPDATE SET <every non-key column> = EXCLUDED.<column>` statement on the stored
table: if some stored row's key conflicts with the incoming key, every
conflicting row keeps its key columns and has all its non-key columns
overwritten with the incoming values; otherwise the row is inserted. -/
def upsertRow {V : Type} (store : List (DailyKey × V)) (k : DailyKey) (v : V) :
    List (DailyKey × V) :=
  if store.any (fun p => key_conflicts p.1 k) then
    store.map (fun p => if key_conflicts p.1 k then (p.1, v) else p)
  else store ++ [(k, v)]

/-- `cursor.executemany(insert_stmt, data)`: the upsert statement is executed
once per row, in row order. -/
def write_batch {V : Type} (store : List (DailyKey × V))
    (rows : List (DailyKey × V)) : List (DailyKey × V) :=
  rows.foldl (fun s r => upsertRow s r.1 r.2) store

/-- Reading the stored row for a key (e.g. `SELECT ... WHERE
instrument_token = ... AND timestamp = ...`). -/
def lookupKey {V : Type} (store : List (DailyKey × V)) (k : DailyKey) : Option V :=
  (store.find? (fun p => decide (p.1 = k))).map Prod.snd

/-- The invariant maintained by `UNIQUE (instrument_token, timestamp)`: no two
stored rows have keys that compare equal under SQL semantics, i.e. identical
instrument token and identical non-null timestamp. -/
def keysUnique {V : Type} (store : List (DailyKey × V)) : Prop :=
  store.Pairwise (fun p q => key_conflicts p.1 q.1 = false)

/-- The conflict-target columns of `replace_sql_execute_many`
(`['instrument_token', 'timestamp']` in the source). -/
def conflict_key_cols : List String :=
  ["instrument_token", "timestamp"]

/-- The loop of `replace_sql_execute_many` that builds the `DO UPDATE SET`
clauses: for each inserted column not among the conflict columns it appends
the clause string `f"{col} = EXCLUDED.{col}"`. -/
def set_clauses (keys : List String) : List String :=
  (keys.filter (fun col => !(conflict_key_cols.contains col))).map
    (fun col => col ++ " = EXCLUDED." ++ col)

/-- `replace_sql_execute_many` as the batch writer sees it: the rows are
upserted one by one inside a single transaction and committed only after
`executemany` finishes.  `failAt` is the failure oracle for an external error
(connectivity loss mid-call) thrown while executing row `j`: when it fires
before the batch is exhausted, the commit is never reached, the open
transaction is rolled back by the connection layer, and no row of the batch is
persisted (`none`). -/
def replace_sql_execute_many {V : Type} (store : List (DailyKey × V))
    (rows : List (DailyKey × V)) (failAt : Option Nat) :
    Option (List (DailyKey × V)) :=
  match failAt with
  | some j => if j < rows.length then none else some (write_batch store rows)
  | none => some (write_batch store rows)

/-! ## Tick normalizer: the per-batch transformation of `bulk_replace` -/

/-- One order-book level dictionary as the feed sends it; `dget` models
`level.get(key, None)` for the three keys the source reads. -/
structure DepthLevel where
  quantity : Option Int
  price : Option Int
  orders : Option Int
deriving DecidableEq

/-- `level.get(key, None)` for a depth level. -/
def DepthLevel.dget (lvl : DepthLevel) (key : String) : Option Int :=
  if key = "quantity" then lvl.quantity
  else if key = "price" then lvl.price
  else if key = "orders" then lvl.orders
  else none

/-- A `depth` dictionary value: a finite map from side name (`"buy"` /
`"sell"`) to its list of levels.  The empty dictionary (`{}`) is falsy in
Python, which the code relies on. -/
structure DepthDict where
  entries : List (String × List DepthLevel)
deriving DecidableEq

/-- `depth.get(side, [])`. -/
def DepthDict.side_levels (d : DepthDict) (side : String) : List DepthLevel :=
  ((d.entries.find? (fun p => decide (p.1 = side))).map Prod.snd).getD []

/-- `preprocess_depth`: each cell of the `depth` column is kept if it is a
dict and replaced by the empty dict `{}` otherwise (a tick without the field
shows up as a non-dict NaN cell). -/
def preprocess_depth (cell : Option DepthDict) : DepthDict :=
  cell.getD ⟨[]⟩

/-- The inner extraction of `extract_depth_values` for one tick:
`depth.get(side, [])[index].get(key, None) if depth else None`.
An empty (falsy) dict yields `None`; otherwise the level list is indexed,
raising `IndexError` when `index` is out of range. -/
def extract_value (depth : DepthDict) (side : String) (index : Nat) (key : String) :
    Except String (Option Int) :=
  if depth.entries.isEmpty then Except.ok none
  else
    match (depth.side_levels side).get? index with
    | none => Except.error "IndexError"
    | some lvl => Except.ok (lvl.dget key)

/-- The inner loop list of `get_depth_values`:
`[('buy', 'quantity'), ('buy', 'price'), ('buy', 'orders'),
('sell', 'quantity'), ('sell', 'price'), ('sell', 'orders')]`. -/
def depth_side_keys : List (String × String) :=
  [("buy", "quantity"), ("buy", "price"), ("buy", "orders"),
   ("sell", "quantity"), ("sell", "price"), ("sell", "orders")]

/-- The 30 `(level index, side, key)` accesses performed by the nested loops
`for i in range(5): for side, key in [...]` of `get_depth_values`, in source
order (columns `bq0, bp0, bo0, sq0, sp0, so0, bq1, ...`). -/
def depth_specs : List (Nat × String × String) :=
  (List.range 5).flatMap (fun i => depth_side_keys.map (fun sk => (i, sk.1, sk.2)))

/-- Sequencing of fallible per-element computations, stopping at the first
raised error (the Python exception aborts the remaining work). -/
def mapExcept {α β : Type} (f : α → Except String β) : List α → Except String (List β)
  | [] => Except.ok []
  | a :: l =>
    match f a with
    | Except.error e => Except.error e
    | Except.ok b =>
      match mapExcept f l with
      | Except.error e => Except.error e
      | Except.ok bs => Except.ok (b :: bs)

/-- `get_depth_values` restricted to one tick: the 30 depth-column values of
that tick, in loop order, or the first exception raised while extracting
them. -/
def get_depth_values (depth : DepthDict) : Except String (List (Option Int)) :=
  mapExcept (fun s => extract_value depth s.2.1 s.1 s.2.2) depth_specs

/-- An `ohlc` dictionary; the source reads it with `.get('open', None)`
etc.  (`open` is a Lean keyword, hence the field name `open_`.) -/
structure OhlcDict where
  open_ : Option Int
  high : Option Int
  low : Option Int
  close : Option Int
deriving DecidableEq

/-- One raw tick as `on_ticks` receives it.  `none` in an optional field
means the tick dictionary lacks that key, so the corresponding DataFrame cell
is a non-dict NaN.  The remaining scalar feed fields (volume, quantities,
open interest, ...) are copied and renamed exactly like `last_price`;
`last_price` stands for that whole pass-through group. -/
structure RawTick where
  instrument_token : Nat
  exchange_timestamp : Option Int
  last_price : Option Int
  ohlc : Option OhlcDict
  depth : Option DepthDict
deriving DecidableEq

/-- The instrument catalog: the three module-level lookup dictionaries merged
by `run_market_data_ticker` and read by `bulk_replace` via `Series.map`. -/
structure Catalog where
  main_token_symbol_dict : List (Nat × String)
  main_token_table_dict : List (Nat × String)
  token_to_db_name_dict : List (Nat × String)

/-- `ticks_df['instrument_token'].map(d)`: a token absent from the dictionary
maps to NaN, i.e. `none`; no exception is raised and no row is removed. -/
def dict_map (d : List (Nat × String)) (token : Nat) : Option String :=
  (d.find? (fun p => decide (p.1 = token))).map Prod.snd

/-- The canonical wide row written to `daily_table` (after the column renames
of `bulk_replace`), restricted to the columns the normalization logic
computes: catalog metadata, the key columns, the renamed scalar
representative `price`, the unwrapped ohlc columns and the 30 flattened depth
columns in loop order. -/
structure CanonicalRow where
  instrument_token : Nat
  tradingsymbol : Option String
  tablename : Option String
  dbname : Option String
  timestamp : Option Int
  price : Option Int
  open_ : Option Int
  high : Option Int
  low : Option Int
  close : Option Int
  depth30 : List (Option Int)
deriving DecidableEq

/-- `x.get(field, None)` on an unwrapped ohlc cell; the caller only reaches
this with a dict cell (a NaN cell raises before any row is built). -/
def ohlc_get (cell : Option OhlcDict) (field : OhlcDict → Option Int) : Option Int :=
  match cell with
  | none => none
  | some o => field o

/-- The canonical row `bulk_replace` builds for one tick, given the 30 depth
values computed for it. -/
def mkRow (cat : Catalog) (t : RawTick) (d30 : List (Option Int)) : CanonicalRow :=
  { instrument_token := t.instrument_token
    tradingsymbol := dict_map cat.main_token_symbol_dict t.instrument_token
    tablename := dict_map cat.main_token_table_dict t.instrument_token
    dbname := dict_map cat.token_to_db_name_dict t.instrument_token
    timestamp := t.exchange_timestamp
    price := t.last_price
    open_ := ohlc_get t.ohlc OhlcDict.open_
    high := ohlc_get t.ohlc OhlcDict.high
    low := ohlc_get t.ohlc OhlcDict.low
    close := ohlc_get t.ohlc OhlcDict.close
    depth30 := d30 }

/-- The normalization phase of `bulk_replace` on one batch:
an empty batch raises (`KeyError` on the missing `instrument_token` column);
the ohlc unwrap `ticks_df['ohlc'].apply(lambda x: x.get(...))` raises as soon
as any tick lacks the `ohlc` dict (`KeyError` when the column is missing
entirely, `AttributeError` on a NaN cell — either way the batch aborts); if no
tick carries `depth`, the column is absent and all 30 depth columns are set to
`None`; otherwise `get_depth_values` flattens each tick's (preprocessed) depth
cell.  Catalog lookups, ohlc unwrapping and renaming never raise and never
drop a row. -/
def normalize_batch (cat : Catalog) (ticks : List RawTick) :
    Except String (List CanonicalRow) :=
  if ticks.isEmpty then Except.error "KeyError"
  else if ticks.any (fun t => t.ohlc.isNone) then Except.error "AttributeError"
  else if ticks.all (fun t => t.depth.isNone) then
    Except.ok (ticks.map (fun t => mkRow cat t (List.replicate 30 none)))
  else
    mapExcept (fun t => (get_depth_values (preprocess_depth t.depth)).map (mkRow cat t)) ticks

/-- The persisted daily table, keyed as the upsert sees it. -/
abbrev DailyStore := List (DailyKey × CanonicalRow)

/-- The key/value pair a canonical row contributes to the upsert. -/
def rowKV (r : CanonicalRow) : DailyKey × CanonicalRow :=
  ((r.instrument_token, r.timestamp), r)

/-- Result of one `bulk_replace` call: the store afterwards, and whether the
failure path ran (`logger.log_error`, `ErrorHandler.handle_error` and
`send_market_data_email` in the `except` block). -/
structure BulkResult where
  store : DailyStore
  notified : Bool
deriving DecidableEq

/-- `bulk_replace`: normalize the batch and upsert it via
`replace_sql_execute_many`; any exception from either phase is caught by the
surrounding `try/except`, which logs, notifies the operator and returns
normally, leaving the store untouched — the ticker session continues and the
next batch is processed as usual. -/
def bulk_replace (cat : Catalog) (store : DailyStore) (ticks : List RawTick)
    (failAt : Option Nat) : BulkResult :=
  match normalize_batch cat ticks with
  | Except.error _ => ⟨store, true⟩
  | Except.ok rows =>
    match replace_sql_execute_many store (rows.map rowKV) failAt with
    | none => ⟨store, true⟩
    | some s2 => ⟨s2, false⟩

/-- Well-formedness of one (preprocessed) depth dict for the extraction code:
either it is empty (falsy, always yields `None`) or both sides carry at least
the 5 levels the loops index. -/
def dd_ok (d : DepthDict) : Bool :=
  d.entries.isEmpty ||
    (decide (5 ≤ (d.side_levels "buy").length) &&
     decide (5 ≤ (d.side_levels "sell").length))

/-- Well-formedness of a tick's depth field: absent, or a well-formed dict. -/
def depth_ok (cell : Option DepthDict) : Bool :=
  match cell with
  | none => true
  | some d => dd_ok d

/-- A valid raw tick as the feed sends it: the ohlc dict is present (index
and tradable ticks both carry it) and the depth field, when present, has the
full 5 levels per side of the feed's FULL mode. -/
def tick_valid (t : RawTick) : Bool :=
  t.ohlc.isSome && depth_ok t.depth

/-- A tick that carries no depth data: the field is absent (index tick) or an
empty dict. -/
def tick_no_depth (t : RawTick) : Bool :=
  match t.depth with
  | none => true
  | some d => d.entries.isEmpty

/-! ## Concrete sample data (used by witnesses and counterexamples) -/

/-- A typical ohlc dict. -/
def sampleOhlc : OhlcDict := ⟨some 100, some 110, some 90, some 105⟩

/-- A well-formed index-style tick (ohlc present, no depth) for token 1. -/
def sampleTick : RawTick :=
  { instrument_token := 1
    exchange_timestamp := some 1000
    last_price := some 101
    ohlc := some sampleOhlc
    depth := none }

/-- A well-formed tick whose token (42) appears in no catalog dictionary. -/
def unknownTick : RawTick :=
  { instrument_token := 42
    exchange_timestamp := some 2000
    last_price := some 7
    ohlc := some sampleOhlc
    depth := none }

/-- A tick missing the scalar `last_price` field (NaN cell, stored as NULL). -/
def noPriceTick : RawTick :=
  { sampleTick with instrument_token := 2, last_price := none }

/-- A tick missing its `ohlc` dict entirely (NaN cell: `.get` raises). -/
def noOhlcTick : RawTick :=
  { sampleTick with instrument_token := 3, ohlc := none }

/-- A catalog with no entries at all. -/
def emptyCatalog : Catalog := ⟨[], [], []⟩

/-- A catalog that knows token 1. -/
def sampleCatalog : Catalog :=
  ⟨[(1, "NIFTY 50")], [(1, "NIFTY")], [(1, "zerodha")]⟩

/-- The canonical row `bulk_replace` derives from `sampleTick`. -/
def sampleRowA : CanonicalRow := mkRow emptyCatalog sampleTick (List.replicate 30 none)

/-- A row with `sampleRowA`'s key but different non-key values, one of them
null where `sampleRowA` has a value (distinguishes overwrite from
merge-if-null). -/
def sampleRowB : CanonicalRow := { sampleRowA with price := some 999, high := none }

/-- A depth dict with a single buy level and no sell side: the shape the
depth-flattening loops cannot handle. -/
def shortDepth : DepthDict := ⟨[("buy", [⟨some 10, some 101, some 3⟩])]⟩

/-- A full FULL-mode depth dict: 5 levels on each side. -/
def fullDepth : DepthDict :=
  ⟨[("buy", List.replicate 5 ⟨some 10, some 101, some 3⟩),
    ("sell", List.replicate 5 ⟨some 20, some 102, some 4⟩)]⟩

/-! ## Lemmas about the upsert -/

theorem kc_some_iff (k : DailyKey) (tok : Nat) (ts : Int) :
    key_conflicts k (tok, some ts) = true ↔ k = (tok, some ts) := by
  rcases k with ⟨t1, _ | t⟩ <;> simp [key_conflicts]

theorem kc_some_self (tok : Nat) (ts : Int) :
    key_conflicts (tok, some ts) (tok, some ts) = true := by
  simp [key_conflicts]

theorem upd_fst {V : Type} (k : DailyKey) (v : V) (p : DailyKey × V) :
    (if key_conflicts p.1 k then (p.1, v) else p).1 = p.1 := by
  by_cases hc : key_conflicts p.1 k = true <;> simp [hc]

theorem upsert_map_fst {V : Type} (s : List (DailyKey × V)) (k : DailyKey) (v : V)
    (h : s.any (fun p => key_conflicts p.1 k) = true) :
    (upsertRow s k v).map Prod.fst = s.map Prod.fst := by
  unfold upsertRow
  rw [if_pos h, List.map_map]
  exact List.map_congr_left (fun p _ => upd_fst k v p)

theorem find_upd_aux {V : Type} (tok : Nat) (ts : Int) (v : V) :
    ∀ s : List (DailyKey × V),
      s.any (fun p => key_conflicts p.1 (tok, some ts)) = true →
      (s.map (fun p => if key_conflicts p.1 (tok, some ts) then (p.1, v) else p)).find?
          (fun p => decide (p.1 = (tok, some ts))) = some ((tok, some ts), v) := by
  intro s
  induction s with
  | nil => intro h; simp at h
  | cons p s ih =>
      intro h
      by_cases hc : key_conflicts p.1 (tok, some ts) = true
      · have hp : p.1 = (tok, some ts) := (kc_some_iff p.1 tok ts).mp hc
        simp [hc, List.find?_cons, hp, kc_some_self]
      · have hp : ¬ p.1 = (tok, some ts) := by
          intro he
          exact hc ((kc_some_iff p.1 tok ts).mpr he)
        have htail : s.any (fun q => key_conflicts q.1 (tok, some ts)) = true := by
          simp only [List.any_cons, hc, Bool.false_or] at h
          simpa using h
        simp [hc, List.find?_cons, hp, ih htail]

theorem lookup_upsert {V : Type} (s : List (DailyKey × V)) (tok : Nat) (ts : Int) (v : V) :
    lookupKey (upsertRow s (tok, some ts) v) (tok, some ts) = some v := by
  unfold lookupKey upsertRow
  by_cases h : s.any (fun p => key_conflicts p.1 (tok, some ts)) = true
  · rw [if_pos h, find_upd_aux tok ts v s h]
    rfl
  · rw [if_neg h, List.find?_append]
    have hnone : s.find? (fun p => decide (p.1 = (tok, some ts))) = none := by
      rw [List.find?_eq_none]
      intro p hp
      simp only [decide_eq_true_eq]
      intro he
      exact h (List.any_eq_true.mpr ⟨p, hp, (kc_some_iff p.1 tok ts).mpr he⟩)
    rw [hnone]
    simp

theorem upsert_idem {V : Type} (s : List (DailyKey × V)) (tok : Nat) (ts : Int) (v : V) :
    upsertRow (upsertRow s (tok, some ts) v) (tok, some ts) v =
      upsertRow s (tok, some ts) v := by
  by_cases h : s.any (fun p => key_conflicts p.1 (tok, some ts)) = true
  · have h1 : upsertRow s (tok, some ts) v =
        s.map (fun p => if key_conflicts p.1 (tok, some ts) then (p.1, v) else p) := by
      unfold upsertRow; rw [if_pos h]
    have hany : (s.map (fun p => if key_conflicts p.1 (tok, some ts) then (p.1, v) else p)).any
        (fun p => key_conflicts p.1 (tok, some ts)) = true := by
      simp only [List.any_map, Function.comp_def, upd_fst]
      exact h
    rw [h1]
    unfold upsertRow
    rw [if_pos hany, List.map_map]
    apply List.map_congr_left
    intro p _
    by_cases hc : key_conflicts p.1 (tok, some ts) = true
    · have hp : p.1 = (tok, some ts) := (kc_some_iff p.1 tok ts).mp hc
      simp [Function.comp_def, hc, hp, kc_some_self]
    · simp [Function.comp_def, hc]
  · have h1 : upsertRow s (tok, some ts) v = s ++ [((tok, some ts), v)] := by
      unfold upsertRow; rw [if_neg h]
    have hany : (s ++ [((tok, some ts), v)]).any
        (fun p => key_conflicts p.1 (tok, some ts)) = true := by
      simp [kc_some_self]
    rw [h1]
    unfold upsertRow
    rw [if_pos hany, List.map_append]
    have hmapid : s.map (fun p => if key_conflicts p.1 (tok, some ts) then (p.1, v) else p)
        = s := by
      have hall : ∀ p ∈ s, key_conflicts p.1 (tok, some ts) = false := by
        intro p hp
        cases hcp : key_conflicts p.1 (tok, some ts) with
        | false => rfl
        | true => exact absurd (List.any_eq_true.mpr ⟨p, hp, hcp⟩) h
      calc s.map (fun p => if key_conflicts p.1 (tok, some ts) then (p.1, v) else p)
          = s.map (fun p => p) :=
            List.map_congr_left (fun p hp => by simp [hall p hp])
        _ = s := List.map_id' s
    rw [hmapid]
    simp [kc_some_self]

theorem keysUnique_upsert {V : Type} (s : List (DailyKey × V)) (k : DailyKey) (v : V)
    (h : keysUnique s) : keysUnique (upsertRow s k v) := by
  unfold keysUnique upsertRow at *
  by_cases ha : s.any (fun p => key_conflicts p.1 k) = true
  · rw [if_pos ha, List.pairwise_map]
    exact h.imp (fun hab => by rwa [upd_fst, upd_fst])
  · rw [if_neg ha, List.pairwise_append]
    refine ⟨h, by simp, ?_⟩
    intro a hain b hb
    simp only [List.mem_singleton] at hb
    subst hb
    cases hca : key_conflicts a.1 k with
    | false => rfl
    | true => exact absurd (List.any_eq_true.mpr ⟨a, hain, hca⟩) ha

theorem keysUnique_write_batch {V : Type} (rows : List (DailyKey × V)) :
    ∀ s : List (DailyKey × V), keysUnique s → keysUnique (write_batch s rows) := by
  induction rows with
  | nil => intro s h; exact h
  | cons r rows ih =>
      intro s h
      exact ih (upsertRow s r.1 r.2) (keysUnique_upsert s r.1 r.2 h)

/-! ## Lemmas about depth flattening and batch normalization -/

theorem mapExcept_ok_of_forall {α β : Type} (f : α → Except String β) (P : α → β → Prop) :
    ∀ l : List α, (∀ a ∈ l, ∃ b, f a = Except.ok b ∧ P a b) →
      ∃ bs, mapExcept f l = Except.ok bs ∧ List.Forall₂ P l bs := by
  intro l
  induction l with
  | nil => intro _; exact ⟨[], rfl, List.Forall₂.nil⟩
  | cons a l ih =>
      intro h
      obtain ⟨b, hb, hP⟩ := h a (by simp)
      obtain ⟨bs, hbs, hF⟩ := ih (fun x hx => h x (by simp [hx]))
      exact ⟨b :: bs, by simp [mapExcept, hb, hbs], List.Forall₂.cons hP hF⟩

theorem forall₂_none_replicate {α : Type} {l : List α} {bs : List (Option Int)}
    (h : List.Forall₂ (fun _ b => b = (none : Option Int)) l bs) :
    bs = List.replicate l.length none := by
  induction h with
  | nil => rfl
  | cons hab _ ih => simp [List.replicate_succ, hab, ih]

theorem extract_value_empty (d : DepthDict) (h : d.entries.isEmpty = true)
    (side : String) (index : Nat) (key : String) :
    extract_value d side index key = Except.ok none := by
  unfold extract_value
  rw [if_pos h]

theorem extract_value_ok (d : DepthDict) (side key : String) (index : Nat)
    (hlen : index < (d.side_levels side).length) :
    ∃ w, extract_value d side index key = Except.ok w := by
  unfold extract_value
  by_cases he : d.entries.isEmpty = true
  · exact ⟨none, by rw [if_pos he]⟩
  · rw [if_neg he]
    cases hg : (d.side_levels side).get? index with
    | none =>
        have := List.get?_eq_none.mp hg
        omega
    | some lvl => exact ⟨lvl.dget key, rfl⟩

theorem depth_specs_length : depth_specs.length = 30 := by decide

theorem depth_specs_bounds :
    ∀ s ∈ depth_specs, s.1 < 5 ∧ (s.2.1 = "buy" ∨ s.2.1 = "sell") := by decide

theorem get_depth_values_empty (d : DepthDict) (h : d.entries.isEmpty = true) :
    get_depth_values d = Except.ok (List.replicate 30 none) := by
  obtain ⟨bs, hbs, hF⟩ :=
    mapExcept_ok_of_forall (fun s => extract_value d s.2.1 s.1 s.2.2)
      (fun _ b => b = (none : Option Int)) depth_specs
      (fun a _ => ⟨none, extract_value_empty d h a.2.1 a.1 a.2.2, rfl⟩)
  unfold get_depth_values
  rw [hbs, forall₂_none_replicate hF, depth_specs_length]

theorem get_depth_values_ok (d : DepthDict) (h : dd_ok d = true) :
    ∃ vals, get_depth_values d = Except.ok vals ∧ vals.length = 30 ∧
      (d.entries.isEmpty = true → vals = List.replicate 30 none) := by
  cases he : d.entries.isEmpty with
  | true =>
      exact ⟨List.replicate 30 none, get_depth_values_empty d he, by simp, fun _ => rfl⟩
  | false =>
      have hsides : 5 ≤ (d.side_levels "buy").length ∧ 5 ≤ (d.side_levels "sell").length := by
        unfold dd_ok at h
        rw [he] at h
        simp at h
        exact h
      obtain ⟨bs, hbs, hF⟩ :=
        mapExcept_ok_of_forall (fun s => extract_value d s.2.1 s.1 s.2.2)
          (fun _ _ => True) depth_specs
          (fun a ha => by
            obtain ⟨hi, hside⟩ := depth_specs_bounds a ha
            have hlen : a.1 < (d.side_levels a.2.1).length := by
              cases hside with
              | inl hb => rw [hb]; omega
              | inr hs => rw [hs]; omega
            obtain ⟨w, hw⟩ := extract_value_ok d a.2.1 a.2.2 a.1 hlen
            exact ⟨w, hw, trivial⟩)
      refine ⟨bs, hbs, ?_, ?_⟩
      · rw [← hF.length_eq, depth_specs_length]
      · intro hcontra
        exact absurd hcontra Bool.false_ne_true

theorem dd_ok_preprocess (cell : Option DepthDict) (h : depth_ok cell = true) :
    dd_ok (preprocess_depth cell) = true := by
  cases cell with
  | none => rfl
  | some d => exact h

theorem normalize_batch_valid (cat : Catalog) (ticks : List RawTick)
    (hne : ticks ≠ [])
    (hval : ∀ t ∈ ticks, tick_valid t = true) :
    ∃ rows, normalize_batch cat ticks = Except.ok rows ∧
      List.Forall₂ (fun t r => r = mkRow cat t r.depth30 ∧ r.depth30.length = 30 ∧
        (tick_no_depth t = true → r.depth30 = List.replicate 30 none)) ticks rows := by
  have h1 : ¬ ticks.isEmpty = true := by
    simpa using hne
  have h2 : ¬ ticks.any (fun t => t.ohlc.isNone) = true := by
    rw [Bool.not_eq_true, List.any_eq_false]
    intro t ht
    have := hval t ht
    unfold tick_valid at this
    simp only [Bool.and_eq_true] at this
    simp [Option.isNone_iff_eq_none]
    exact Option.isSome_iff_ne_none.mp this.1
  unfold normalize_batch
  rw [if_neg h1, if_neg h2]
  by_cases h3 : ticks.all (fun t => t.depth.isNone) = true
  · rw [if_pos h3]
    refine ⟨_, rfl, ?_⟩
    rw [List.forall₂_map_right_iff, List.forall₂_same]
    intro t _
    refine ⟨rfl, ?_, fun _ => rfl⟩
    show (List.replicate 30 (none : Option Int)).length = 30
    simp
  · rw [if_neg h3]
    apply mapExcept_ok_of_forall
    intro t ht
    have hdd : dd_ok (preprocess_depth t.depth) = true := by
      apply dd_ok_preprocess
      have := hval t ht
      unfold tick_valid at this
      simp only [Bool.and_eq_true] at this
      exact this.2
    obtain ⟨vals, hv, h30, hemp⟩ := get_depth_values_ok (preprocess_depth t.depth) hdd
    refine ⟨mkRow cat t vals, by rw [hv]; rfl, rfl, h30, ?_⟩
    intro hnd
    unfold tick_no_depth at hnd
    cases hd : t.depth with
    | none =>
        rw [hd] at hemp
        exact hemp rfl
    | some dd =>
        rw [hd] at hnd hemp
        exact hemp hnd

/-- Building `f"{col} = EXCLUDED.{col}"` is injective in `col`. -/
theorem clause_inj (c1 c2 : String) (h : c1 ++ " = EXCLUDED." ++ c1 = c2 ++ " = EXCLUDED." ++ c2) :
    c1 = c2 := by
  have hd : c1.data ++ (" = EXCLUDED.".data ++ c1.data) =
      c2.data ++ (" = EXCLUDED.".data ++ c2.data) := by
    have := congrArg String.data h
    simpa [String.data_append, List.append_assoc] using this
  have hlen : c1.data.length = c2.data.length := by
    have h2 := congrArg List.length hd
    simp only [List.length_append] at h2
    omega
  exact String.ext (List.append_inj hd hlen).1

/-! ## Claims -/

/-- C1: last-write-wins.  For canonical rows A then B written in that order
with the same key (instrument token and event timestamp, the timestamp being
an actual event time as every raw tick carries) and different non-key values,
the stored row for that key afterwards is exactly B: every non-key column
holds B's value, because the generated `DO UPDATE SET` overwrites all non-key
columns with `EXCLUDED` values — a full overwrite, not a merge of A and B and
not merge-if-null. -/
theorem C1_last_write_wins (s : DailyStore) (a b : CanonicalRow) (tok : Nat) (ts : Int)
    (ha1 : a.instrument_token = tok) (ha2 : a.timestamp = some ts)
    (hb1 : b.instrument_token = tok) (hb2 : b.timestamp = some ts)
    (_hab : a ≠ b) :
    lookupKey (write_batch s [rowKV a, rowKV b]) (tok, some ts) = some b := by
  unfold write_batch rowKV
  simp only [List.foldl_cons, List.foldl_nil]
  rw [ha1, ha2, hb1, hb2]
  exact lookup_upsert _ tok ts b

/-- C1 witness: rows with key (1, 1000); B has price 999 and a null high where
A had `some 110`; the stored row equals B exactly. -/
theorem C1_last_write_wins_witness :
    lookupKey (write_batch [] [rowKV sampleRowA, rowKV sampleRowB]) (1, some 1000) =
      some sampleRowB :=
  C1_last_write_wins [] sampleRowA sampleRowB 1 1000 rfl rfl rfl rfl (by decide)

/-- C2: idempotence.  Writing the same canonical row (carrying its event
timestamp) twice through the batch writer leaves the store in the same state
as writing it once: no duplicate row is created and the non-key columns equal
the last-written values. -/
theorem C2_write_batch_idempotent (s : DailyStore) (r : CanonicalRow) (ts : Int)
    (hts : r.timestamp = some ts) :
    write_batch (write_batch s [rowKV r]) [rowKV r] = write_batch s [rowKV r] := by
  unfold write_batch rowKV
  simp only [List.foldl_cons, List.foldl_nil]
  rw [hts]
  exact upsert_idem s r.instrument_token ts r

/-- C2 witness at the concrete row `sampleRowA`, starting from the empty
store. -/
theorem C2_write_batch_idempotent_witness :
    write_batch (write_batch [] [rowKV sampleRowA]) [rowKV sampleRowA] =
      write_batch [] [rowKV sampleRowA] :=
  C2_write_batch_idempotent [] sampleRowA 1000 rfl

/-- C3: uniqueness invariant.  If the store satisfies the
`UNIQUE (instrument_token, timestamp)` invariant — no two rows whose keys
compare equal under SQL semantics (equal token, equal non-null timestamp) —
then it still satisfies it after any sequence of batch writes: every upsert
either updates the conflicting rows in place or inserts a key that conflicts
with nothing. -/
theorem C3_key_uniqueness_invariant (s : DailyStore) (batches : List (List CanonicalRow))
    (h : keysUnique s) :
    keysUnique (batches.foldl (fun st rows => write_batch st (rows.map rowKV)) s) := by
  induction batches generalizing s with
  | nil => exact h
  | cons rows batches ih =>
      exact ih (write_batch s (rows.map rowKV)) (keysUnique_write_batch (rows.map rowKV) s h)

/-- C3 witness: the empty store is unique, and stays unique after writing a
batch containing a duplicated key followed by another batch. -/
theorem C3_key_uniqueness_invariant_witness :
    keysUnique (([[sampleRowA, sampleRowB], [sampleRowA]] : List (List CanonicalRow)).foldl
      (fun st rows => write_batch st (rows.map rowKV)) []) :=
  C3_key_uniqueness_invariant [] [[sampleRowA, sampleRowB], [sampleRowA]] List.Pairwise.nil

/-- C7 counterexample: the claim says every start at or after the cutoff
(zero or negative run duration) is refused.  Starting exactly at the cutoff
10:30:00.000000 gives run duration zero, and `run_market_data_ticker` does
NOT refuse: the guard is strictly `run_duration < 0`, so a zero-duration
session starts (shutdown timer armed with 0 seconds). -/
theorem C7_past_cutoff_counterexample :
    shutdown_time_micros 10 30 ≤ (NowTime.mk 10 30 0 0).toMicros ∧
    run_market_data_ticker (NowTime.mk 10 30 0 0) 10 30 ≠ TickerOutcome.refused := by
  decide

/-- C7 amended: `run_market_data_ticker` refuses to start — reporting the
error and returning failure before the stream is opened or the writer touched
— exactly when the configured cutoff is strictly in the past (negative run
duration); at exactly the cutoff it starts a zero-duration session. -/
theorem C7_past_cutoff_refusal (now : NowTime) (sh sm : Nat) :
    run_market_data_ticker now sh sm = TickerOutcome.refused ↔
      shutdown_time_micros sh sm < now.toMicros := by
  unfold run_market_data_ticker
  by_cases h : run_duration now sh sm < 0
  · rw [if_pos h]
    unfold run_duration at h
    exact ⟨fun _ => by omega, fun _ => rfl⟩
  · rw [if_neg h]
    unfold run_duration at h
    exact ⟨fun hc => TickerOutcome.noConfusion hc, fun hlt => absurd (by omega) h⟩

/-- C10: the conflict-update clause only touches non-key columns.  The
generated `SET` list contains the clause for a column exactly when that
column is inserted and is neither `instrument_token` nor `timestamp`; and a
conflicting write leaves the key columns of every stored row unchanged. -/
theorem C10_set_clause_frame (keys : List String) (col : String) :
    ((col ++ " = EXCLUDED." ++ col) ∈ set_clauses keys ↔
      (col ∈ keys ∧ col ≠ "instrument_token" ∧ col ≠ "timestamp")) ∧
    (∀ (s : DailyStore) (k : DailyKey) (v : CanonicalRow),
      s.any (fun p => key_conflicts p.1 k) = true →
      (upsertRow s k v).map Prod.fst = s.map Prod.fst) := by
  constructor
  · constructor
    · intro hmem
      unfold set_clauses at hmem
      obtain ⟨c, hc, he⟩ := List.mem_map.mp hmem
      have hcol : c = col := clause_inj c col he
      subst hcol
      obtain ⟨hmemk, hfilt⟩ := List.mem_filter.mp hc
      simp [conflict_key_cols, not_or] at hfilt
      exact ⟨hmemk, hfilt.1, hfilt.2⟩
    · rintro ⟨hmemk, h1, h2⟩
      unfold set_clauses
      exact List.mem_map.mpr ⟨col, List.mem_filter.mpr ⟨hmemk, by
        simp [conflict_key_cols, h1, h2]⟩, rfl⟩
  · exact fun s k v h => upsert_map_fst s k v h

/-- C10 witness: for the key and `price` columns concretely, and a
single-row store hit by a conflicting write. -/
theorem C10_set_clause_frame_witness :
    (("price" ++ " = EXCLUDED." ++ "price") ∈
        set_clauses ["instrument_token", "timestamp", "price"]) ∧
    (upsertRow [((1, some 1000), sampleRowA)] (1, some 1000) sampleRowB).map Prod.fst =
      [((1, some 1000), sampleRowA)].map Prod.fst := by
  constructor
  · exact (C10_set_clause_frame ["instrument_token", "timestamp", "price"] "price").1.mpr
      (by simp)
  · exact (C10_set_clause_frame [] "price").2 [((1, some 1000), sampleRowA)]
      (1, some 1000) sampleRowB (by decide)

/-- C4 counterexample: the claim says a tick with an unknown instrument
identifier yields an `UnknownInstrument` error, is dropped, and no row for it
reaches the store.  Concretely, token 42 is absent from every dictionary of
`emptyCatalog`, yet processing the batch raises nothing (`notified = false`)
and a row for the tick IS persisted. -/
theorem C4_unknown_instrument_counterexample :
    dict_map emptyCatalog.main_token_symbol_dict unknownTick.instrument_token = none ∧
    (bulk_replace emptyCatalog [] [unknownTick] none).store.length = 1 ∧
    (bulk_replace emptyCatalog [] [unknownTick] none).notified = false := by
  decide

/-- C4 amended: a tick whose instrument identifier is absent from the catalog
is NOT dropped and produces no error: `Series.map` yields NaN for the missing
key, so normalization still produces exactly one canonical row — with null
display symbol, table name and database name — and that row is upserted into
the store like any other; the rest of the batch is unaffected. -/
theorem C4_unknown_instrument_amended (cat : Catalog) (store : DailyStore) (t : RawTick)
    (hv : tick_valid t = true)
    (h1 : dict_map cat.main_token_symbol_dict t.instrument_token = none)
    (h2 : dict_map cat.main_token_table_dict t.instrument_token = none)
    (h3 : dict_map cat.token_to_db_name_dict t.instrument_token = none) :
    ∃ r, normalize_batch cat [t] = Except.ok [r] ∧
      r.tradingsymbol = none ∧ r.tablename = none ∧ r.dbname = none ∧
      bulk_replace cat store [t] none =
        ⟨upsertRow store (t.instrument_token, t.exchange_timestamp) r, false⟩ := by
  obtain ⟨rows, hrows, hF⟩ := normalize_batch_valid cat [t] (by simp)
    (by intro x hx; rw [List.mem_singleton] at hx; rwa [hx])
  cases hF with
  | cons hP htail =>
      cases htail
      rename_i r
      obtain ⟨hmk, -, -⟩ := hP
      have e1 : r.tradingsymbol = dict_map cat.main_token_symbol_dict t.instrument_token :=
        congrArg CanonicalRow.tradingsymbol hmk
      have e2 : r.tablename = dict_map cat.main_token_table_dict t.instrument_token :=
        congrArg CanonicalRow.tablename hmk
      have e3 : r.dbname = dict_map cat.token_to_db_name_dict t.instrument_token :=
        congrArg CanonicalRow.dbname hmk
      have e4 : r.instrument_token = t.instrument_token :=
        congrArg CanonicalRow.instrument_token hmk
      have e5 : r.timestamp = t.exchange_timestamp :=
        congrArg CanonicalRow.timestamp hmk
      refine ⟨r, hrows, e1.trans h1, e2.trans h2, e3.trans h3, ?_⟩
      unfold bulk_replace
      rw [hrows]
      show (⟨write_batch store ([r].map rowKV), false⟩ : BulkResult) =
        ⟨upsertRow store (t.instrument_token, t.exchange_timestamp) r, false⟩
      unfold write_batch rowKV
      simp only [List.map_cons, List.map_nil, List.foldl_cons, List.foldl_nil]
      rw [e4, e5]

/-- C4 amended, witness: the unknown-token tick concretely ends up stored
with null metadata. -/
theorem C4_unknown_instrument_amended_witness :
    ∃ r, normalize_batch emptyCatalog [unknownTick] = Except.ok [r] ∧
      r.tradingsymbol = none ∧ r.tablename = none ∧ r.dbname = none ∧
      bulk_replace emptyCatalog [] [unknownTick] none =
        ⟨upsertRow [] (unknownTick.instrument_token, unknownTick.exchange_timestamp) r,
          false⟩ :=
  C4_unknown_instrument_amended emptyCatalog [] unknownTick (by decide) rfl rfl rfl

/-- C5 counterexample: the claim says only the malformed tick of a batch is
dropped (and logged) while the well-formed ticks are persisted.  Concretely:
a batch with a tick missing its price is persisted whole — 2 rows, nothing
dropped, nothing logged; and a batch with a tick missing its `ohlc`
sub-record is dropped WHOLE — the well-formed `sampleTick` in it is not
persisted either, and the error path runs. -/
theorem C5_malformed_tick_counterexample :
    (bulk_replace emptyCatalog [] [sampleTick, noPriceTick] none).store.length = 2 ∧
    (bulk_replace emptyCatalog [] [sampleTick, noPriceTick] none).notified = false ∧
    (bulk_replace emptyCatalog [] [sampleTick, noOhlcTick] none).store = [] ∧
    (bulk_replace emptyCatalog [] [sampleTick, noOhlcTick] none).notified = true := by
  decide

/-- C5 amended: per-row normalization errors escalate to the batch, not past
it.  A tick missing its `ohlc` dict makes the whole batch fail: no tick of
the batch is persisted (the well-formed ones included), the error is logged
and notified, and the session continues — the next batch is processed from
the unchanged store.  A tick missing only a scalar field such as price is not
dropped at all: it is normalized with a null in that column and persisted
without any error. -/
theorem C5_malformed_tick_amended (cat : Catalog) (store : DailyStore)
    (ticks : List RawTick) (failAt : Option Nat) (t0 : RawTick)
    (hmem : t0 ∈ ticks) (hbad : t0.ohlc = none) :
    bulk_replace cat store ticks failAt = ⟨store, true⟩ ∧
    (∀ ticks2 failAt2,
      bulk_replace cat (bulk_replace cat store ticks failAt).store ticks2 failAt2 =
        bulk_replace cat store ticks2 failAt2) ∧
    (∀ t : RawTick, t.ohlc.isSome = true → t.depth = none → t.last_price = none →
      ∃ r, normalize_batch cat [t] = Except.ok [r] ∧ r.price = none ∧
        (bulk_replace cat store [t] none).notified = false) := by
  have hne : ¬ ticks.isEmpty = true := by
    rcases ticks with _ | ⟨t, ticks⟩
    · cases hmem
    · simp
  have hany : ticks.any (fun t => t.ohlc.isNone) = true :=
    List.any_eq_true.mpr ⟨t0, hmem, by rw [hbad]; rfl⟩
  have h1 : bulk_replace cat store ticks failAt = ⟨store, true⟩ := by
    unfold bulk_replace normalize_batch
    rw [if_neg hne, if_pos hany]
  refine ⟨h1, fun ticks2 failAt2 => by rw [h1], ?_⟩
  intro t hohlc hdep hpx
  have hn : normalize_batch cat [t] =
      Except.ok [mkRow cat t (List.replicate 30 none)] := by
    unfold normalize_batch
    rw [if_neg (by simp), if_neg (by simp [Option.isNone_iff_eq_none,
      Option.isSome_iff_ne_none.mp hohlc]), if_pos (by simp [hdep])]
    rfl
  refine ⟨mkRow cat t (List.replicate 30 none), hn, hpx, ?_⟩
  unfold bulk_replace
  rw [hn]
  rfl

/-- C5 amended, witness: the `ohlc`-less batch concretely fails whole while
the session continues. -/
theorem C5_malformed_tick_amended_witness :
    bulk_replace emptyCatalog [] [sampleTick, noOhlcTick] none = ⟨[], true⟩ :=
  (C5_malformed_tick_amended emptyCatalog [] [sampleTick, noOhlcTick] none noOhlcTick
    (by simp) rfl).1

/-- C6: a batch whose write raises mid-call (the failure oracle fires on a row
index inside the batch) persists nothing: `commit` is never reached, so the
transaction is discarded and the store is unchanged; the `except` block
notifies the operator; and the session continues — the next batch is
processed exactly as it would have been from the original store. -/
theorem C6_failed_batch_atomic (cat : Catalog) (store : DailyStore)
    (ticks : List RawTick) (rows : List CanonicalRow) (j : Nat)
    (hn : normalize_batch cat ticks = Except.ok rows) (hj : j < rows.length) :
    bulk_replace cat store ticks (some j) = ⟨store, true⟩ ∧
    ∀ ticks2 failAt2,
      bulk_replace cat (bulk_replace cat store ticks (some j)).store ticks2 failAt2 =
        bulk_replace cat store ticks2 failAt2 := by
  have hre : replace_sql_execute_many store (rows.map rowKV) (some j) = none := by
    show (if j < (rows.map rowKV).length then none
      else some (write_batch store (rows.map rowKV))) = none
    rw [List.length_map, if_pos hj]
  have h1 : bulk_replace cat store ticks (some j) = ⟨store, true⟩ := by
    unfold bulk_replace
    rw [hn]
    show (match replace_sql_execute_many store (rows.map rowKV) (some j) with
      | none => (⟨store, true⟩ : BulkResult)
      | some s2 => ⟨s2, false⟩) = ⟨store, true⟩
    rw [hre]
  exact ⟨h1, fun ticks2 failAt2 => by rw [h1]⟩

/-- C6 witness: a transport error at row 0 of a 1-row batch leaves the empty
store empty and notifies. -/
theorem C6_failed_batch_atomic_witness :
    bulk_replace emptyCatalog [] [sampleTick] (some 0) = ⟨[], true⟩ :=
  (C6_failed_batch_atomic emptyCatalog [] [sampleTick]
    [mkRow emptyCatalog sampleTick (List.replicate 30 none)] 0 rfl (by decide)).1

/-- C8: for every nonempty batch of valid raw ticks (ohlc dict present and
FULL-mode depth shape when depth is present) whose instrument identifiers are
known to the catalog, normalization succeeds and produces exactly one
canonical row per tick (`Forall₂` forces equal lengths) in which the list of
30 depth columns is present with length exactly 30; for a tick carrying no
depth sub-record (index ticks) all 30 are explicitly null, keeping the row
shape fixed. -/
theorem C8_row_shape_fixed (cat : Catalog) (ticks : List RawTick)
    (hne : ticks ≠ [])
    (hval : ∀ t ∈ ticks, tick_valid t = true)
    (_hknown : ∀ t ∈ ticks,
      (dict_map cat.main_token_symbol_dict t.instrument_token).isSome = true) :
    ∃ rows, normalize_batch cat ticks = Except.ok rows ∧
      List.Forall₂ (fun t r => r.depth30.length = 30 ∧
        (tick_no_depth t = true → r.depth30 = List.replicate 30 none)) ticks rows := by
  obtain ⟨rows, hrows, hF⟩ := normalize_batch_valid cat ticks hne hval
  exact ⟨rows, hrows, hF.imp (fun a b h => ⟨h.2.1, h.2.2⟩)⟩

/-- C8 witness: a batch of one index tick and one full-depth tick, both known
to `sampleCatalog`. -/
theorem C8_row_shape_fixed_witness :
    ∃ rows, normalize_batch sampleCatalog [sampleTick, { sampleTick with depth := some fullDepth }] =
        Except.ok rows ∧
      List.Forall₂ (fun t r => r.depth30.length = 30 ∧
          (tick_no_depth t = true → r.depth30 = List.replicate 30 none))
        [sampleTick, { sampleTick with depth := some fullDepth }] rows :=
  C8_row_shape_fixed sampleCatalog [sampleTick, { sampleTick with depth := some fullDepth }]
    (by simp) (by decide) (by decide)

/-- C9 counterexample: the claim says depth flattening is total for any depth
sub-record with up to 5 levels per side, missing sides included.
`shortDepth` — one buy level, no sell side — is such a record, and the
flattening raises `IndexError` (the code indexes `depth.get(side, [])[index]`
unconditionally once the dict is non-empty) instead of yielding nulls. -/
theorem C9_depth_flattening_counterexample :
    get_depth_values shortDepth = Except.error "IndexError" := by
  rfl

/-- C9 amended: depth flattening is total exactly on the shapes the feed
sends: it never raises when the (preprocessed) depth dict is empty — in which
case all 30 columns are null — or when both sides carry at least the 5
levels the loops index; a key missing inside a level yields null.  For a side
with fewer than 5 levels, or one missing side with the other present, it
raises `IndexError` (which then aborts the whole batch). -/
theorem C9_depth_flattening_amended (d : DepthDict) (h : dd_ok d = true) :
    ∃ vals, get_depth_values d = Except.ok vals ∧ vals.length = 30 ∧
      (d.entries.isEmpty = true → vals = List.replicate 30 none) :=
  get_depth_values_ok d h

/-- C9 amended, witness: the full 5×2-level dict flattens without error into
30 values. -/
theorem C9_depth_flattening_amended_witness :
    ∃ vals, get_depth_values fullDepth = Except.ok vals ∧ vals.length = 30 ∧
      (fullDepth.entries.isEmpty = true → vals = List.replicate 30 none) :=
  C9_depth_flattening_amended fullDepth (by decide)

end ZerodhaDataCollector
